import Mathlib

/-!
Verification of the sprite-sheet layout core of `sprite-tools` (src/main.js).

The embedding models the layout planning, placement assignment, and metadata
building performed by `generateSpriteFromDirectory` (main.js lines 70-146).
Image records are the `(filename, width, height)` triples collected from the
decoded images; the opaque pixel handle is represented by the record itself.
All JS numbers involved are nonnegative integers (image dimensions, padding,
max size, loop indices), so the embedding uses `Nat` with exact arithmetic;
`Math.ceil(Math.sqrt(n))` is embedded as the exact ceiling of the square root.
-/

/-- One input image record: `{ path, filename, width, height, image }`
    (main.js lines 54-60), with the opaque decoded-image handle left out. -/
structure ImageRecord where
  filename : String
  width : Nat
  height : Nat
deriving DecidableEq, Repr

instance : Inhabited ImageRecord := ⟨⟨"", 0, 0⟩⟩

/-- `gridSize = Math.ceil(Math.sqrt(imageCount))` (main.js line 71):
    the exact ceiling of the square root of `n`. -/
def gridSize (n : Nat) : Nat :=
  if Nat.sqrt n * Nat.sqrt n = n then Nat.sqrt n else Nat.sqrt n + 1

/-- `maxCellWidth = Math.max(...imagesMetadata.map(img => img.width)) + options.padding`
    (main.js line 73). -/
def maxCellWidth (rs : List ImageRecord) (padding : Nat) : Nat :=
  (rs.map (fun r => r.width)).foldr max 0 + padding

/-- `maxCellHeight = Math.max(...imagesMetadata.map(img => img.height)) + options.padding`
    (main.js line 74). -/
def maxCellHeight (rs : List ImageRecord) (padding : Nat) : Nat :=
  (rs.map (fun r => r.height)).foldr max 0 + padding

/-- `spriteWidth = gridSize * maxCellWidth` (main.js line 75). -/
def spriteWidth (rs : List ImageRecord) (padding : Nat) : Nat :=
  gridSize rs.length * maxCellWidth rs padding

/-- `spriteHeight = gridSize * maxCellHeight` (main.js line 76). -/
def spriteHeight (rs : List ImageRecord) (padding : Nat) : Nat :=
  gridSize rs.length * maxCellHeight rs padding

/-- The placement computed for loop index `i` (main.js lines 114-117, 126):
    `row = Math.floor(i / gridSize)`, `col = i % gridSize`,
    `x = col * maxCellWidth`, `y = row * maxCellHeight`,
    width/height taken verbatim from the record. -/
structure PlacementEntry where
  x : Nat
  y : Nat
  width : Nat
  height : Nat
deriving DecidableEq, Repr

def placeAt (rs : List ImageRecord) (padding i : Nat) : PlacementEntry :=
  { x := (i % gridSize rs.length) * maxCellWidth rs padding
    y := (i / gridSize rs.length) * maxCellHeight rs padding
    width := (rs.getD i default).width
    height := (rs.getD i default).height }

/-- JS object assignment `positions[filename] = entry` (main.js line 126):
    if the key is already present its value is replaced in place, otherwise
    the pair is appended, preserving insertion order of keys. -/
def objInsert (m : List (String × PlacementEntry)) (k : String) (v : PlacementEntry) :
    List (String × PlacementEntry) :=
  if m.any (fun q => q.1 == k) then
    m.map (fun q => if q.1 == k then (k, v) else q)
  else
    m ++ [(k, v)]

/-- State of the `positions` object after the first `m` iterations of the
    placement loop (main.js lines 111-128). -/
def positionsAux (rs : List ImageRecord) (padding : Nat) : Nat → List (String × PlacementEntry)
  | 0 => []
  | m + 1 =>
    objInsert (positionsAux rs padding m) (rs.getD m default).filename (placeAt rs padding m)

/-- The `positions` object after the full placement loop (`i` from `0` to
    `imageCount - 1`, main.js lines 113-128). -/
def positions (rs : List ImageRecord) (padding : Nat) : List (String × PlacementEntry) :=
  positionsAux rs padding rs.length

/-- Property access `positions[f]` on the finished object: the value stored
    under key `f`, if present. -/
def lookupPos (m : List (String × PlacementEntry)) (k : String) : Option PlacementEntry :=
  (m.find? (fun q => q.1 == k)).map (fun q => q.2)

/-- The `composites` array (main.js lines 110-124): for each index in order,
    the unmodified source image (represented by its record) together with the
    `left`/`top` offsets.  No width, height, scale or crop field is passed. -/
def composites (rs : List ImageRecord) (padding : Nat) : List (ImageRecord × Nat × Nat) :=
  (List.range rs.length).map
    (fun i => (rs.getD i default, (placeAt rs padding i).x, (placeAt rs padding i).y))

/-- The JSON document `jsonData` (main.js lines 139-145). -/
structure SpriteDocument where
  spriteWidth : Nat
  spriteHeight : Nat
  gridSize : Nat
  imageCount : Nat
  images : List (String × PlacementEntry)
deriving DecidableEq, Repr

def jsonData (rs : List ImageRecord) (padding : Nat) : SpriteDocument :=
  { spriteWidth := spriteWidth rs padding
    spriteHeight := spriteHeight rs padding
    gridSize := gridSize rs.length
    imageCount := rs.length
    images := positions rs padding }

/-- The single failure the planner can signal (main.js lines 78-85). -/
inductive PlanError where
  | SizeExceeded
deriving DecidableEq, Repr

/-- The core pipeline from collected records to the output artifacts
    (main.js lines 70-146): after computing the layout, the run aborts with
    `SizeExceeded` when `spriteWidth > options.maxSize || spriteHeight >
    options.maxSize` (line 78) before any artifact is produced; otherwise it
    produces the composed canvas data and the JSON document. -/
def generateSprite (rs : List ImageRecord) (padding maxSize : Nat) :
    Except PlanError (List (ImageRecord × Nat × Nat) × SpriteDocument) :=
  if spriteWidth rs padding > maxSize ∨ spriteHeight rs padding > maxSize then
    Except.error PlanError.SizeExceeded
  else
    Except.ok (composites rs padding, jsonData rs padding)

/-! ### Helper lemmas about `gridSize` -/

lemma gridSize_sq_ge (n : Nat) : n ≤ gridSize n * gridSize n := by
  unfold gridSize
  split
  case isTrue heq => omega
  case isFalse hne =>
    simpa [Nat.succ_eq_add_one] using Nat.le_of_lt (Nat.lt_succ_sqrt n)

lemma gridSize_least (n k : Nat) (h : n ≤ k * k) : gridSize n ≤ k := by
  unfold gridSize
  split
  case isTrue heq =>
    have h1 : Nat.sqrt n ≤ Nat.sqrt (k * k) := Nat.sqrt_le_sqrt h
    simpa [Nat.sqrt_eq] using h1
  case isFalse hne =>
    rcases Nat.lt_or_ge (Nat.sqrt n) k with hlt | hge
    · exact hlt
    · exfalso
      have h2 : k * k ≤ Nat.sqrt n * Nat.sqrt n := Nat.mul_le_mul hge hge
      have h3 : Nat.sqrt n * Nat.sqrt n ≤ n := Nat.sqrt_le n
      exact hne (Nat.le_antisymm h3 (Nat.le_trans h h2))

lemma gridSize_eq_of (n k : Nat) (h1 : n ≤ k * k) (h2 : (k - 1) * (k - 1) < n) :
    gridSize n = k := by
  refine Nat.le_antisymm (gridSize_least n k h1) ?_
  by_contra hlt
  push_neg at hlt
  have hk1 : gridSize n ≤ k - 1 := by omega
  have hsq : gridSize n * gridSize n ≤ (k - 1) * (k - 1) := Nat.mul_le_mul hk1 hk1
  exact absurd h2 (Nat.not_lt.mpr (Nat.le_trans (gridSize_sq_ge n) hsq))

lemma gridSize_pos (n : Nat) (hn : 1 ≤ n) : 1 ≤ gridSize n := by
  rcases Nat.eq_zero_or_pos (gridSize n) with h0 | h1
  · have hsq := gridSize_sq_ge n
    rw [h0] at hsq
    omega
  · exact h1

/-- C1: for every record count `n ≥ 1` the computed grid size is at least 1 and
is the least `k` with `n ≤ k * k`, i.e. `gridSize n = ceil(sqrt n)`;
in particular the table n=1→1, n∈2..4→2, n∈5..9→3, n∈10..16→4 holds at its
boundary points. -/
theorem gridSize_is_ceil_sqrt (n : Nat) (hn : 1 ≤ n) :
    (1 ≤ gridSize n ∧ n ≤ gridSize n * gridSize n ∧
      ∀ k, n ≤ k * k → gridSize n ≤ k) ∧
    (gridSize 1 = 1 ∧ gridSize 2 = 2 ∧ gridSize 4 = 2 ∧ gridSize 5 = 3 ∧
      gridSize 9 = 3 ∧ gridSize 10 = 4 ∧ gridSize 16 = 4) :=
  ⟨⟨gridSize_pos n hn, gridSize_sq_ge n, fun k hk => gridSize_least n k hk⟩,
    gridSize_eq_of 1 1 (by omega) (by omega), gridSize_eq_of 2 2 (by omega) (by omega),
    gridSize_eq_of 4 2 (by omega) (by omega), gridSize_eq_of 5 3 (by omega) (by omega),
    gridSize_eq_of 9 3 (by omega) (by omega), gridSize_eq_of 10 4 (by omega) (by omega),
    gridSize_eq_of 16 4 (by omega) (by omega)⟩

/-- C1 witness: the characterization instantiated at `n = 10`. -/
theorem gridSize_is_ceil_sqrt_witness :
    (1 ≤ gridSize 10 ∧ 10 ≤ gridSize 10 * gridSize 10 ∧
      ∀ k, 10 ≤ k * k → gridSize 10 ≤ k) ∧
    (gridSize 1 = 1 ∧ gridSize 2 = 2 ∧ gridSize 4 = 2 ∧ gridSize 5 = 3 ∧
      gridSize 9 = 3 ∧ gridSize 10 = 4 ∧ gridSize 16 = 4) :=
  gridSize_is_ceil_sqrt 10 (by decide)

/-! ### Helper lemmas about `foldr max` -/

lemma le_foldr_max (l : List Nat) (a : Nat) (h : a ∈ l) : a ≤ l.foldr max 0 := by
  induction l with
  | nil => cases h
  | cons b t ih =>
    rcases List.mem_cons.mp h with h | h
    · subst h
      exact Nat.le_max_left a (t.foldr max 0)
    · exact Nat.le_trans (ih h) (Nat.le_max_right b (t.foldr max 0))

lemma foldr_max_mem (l : List Nat) (h : l ≠ []) : l.foldr max 0 ∈ l := by
  induction l with
  | nil => exact absurd rfl h
  | cons b t ih =>
    show max b (t.foldr max 0) ∈ b :: t
    by_cases ht : t = []
    · subst ht
      simp
    · rcases Nat.le_total (t.foldr max 0) b with hle | hle
      · rw [Nat.max_eq_left hle]
        exact List.mem_cons_self b t
      · rw [Nat.max_eq_right hle]
        exact List.mem_cons_of_mem b (ih ht)

/-- C2: for a non-empty record sequence and any padding, each cell dimension is
the maximum record width (resp. height) plus the padding — attained by some
record and dominating every record — and each sheet dimension is the grid size
times the corresponding cell dimension. -/
theorem cell_and_sheet_dimensions (rs : List ImageRecord) (padding : Nat) (h : rs ≠ []) :
    (∀ r ∈ rs, r.width + padding ≤ maxCellWidth rs padding) ∧
    (∃ r ∈ rs, maxCellWidth rs padding = r.width + padding) ∧
    (∀ r ∈ rs, r.height + padding ≤ maxCellHeight rs padding) ∧
    (∃ r ∈ rs, maxCellHeight rs padding = r.height + padding) ∧
    spriteWidth rs padding = gridSize rs.length * maxCellWidth rs padding ∧
    spriteHeight rs padding = gridSize rs.length * maxCellHeight rs padding := by
  refine ⟨?_, ?_, ?_, ?_, rfl, rfl⟩
  · intro r hr
    exact Nat.add_le_add_right (le_foldr_max _ r.width (List.mem_map_of_mem _ hr)) padding
  · have hm : (rs.map (fun r => r.width)).foldr max 0 ∈ rs.map (fun r => r.width) :=
      foldr_max_mem _ (by simpa using h)
    rcases List.mem_map.mp hm with ⟨r, hr, hw⟩
    exact ⟨r, hr, by rw [maxCellWidth, hw]⟩
  · intro r hr
    exact Nat.add_le_add_right (le_foldr_max _ r.height (List.mem_map_of_mem _ hr)) padding
  · have hm : (rs.map (fun r => r.height)).foldr max 0 ∈ rs.map (fun r => r.height) :=
      foldr_max_mem _ (by simpa using h)
    rcases List.mem_map.mp hm with ⟨r, hr, hw⟩
    exact ⟨r, hr, by rw [maxCellHeight, hw]⟩

def rsB : List ImageRecord := [⟨"b1.png", 50, 40⟩, ⟨"b2.png", 30, 50⟩]

/-- C2 witness: the dimension equations instantiated on a concrete two-record
sequence with padding 10. -/
theorem cell_and_sheet_dimensions_witness :
    (∀ r ∈ rsB, r.width + 10 ≤ maxCellWidth rsB 10) ∧
    (∃ r ∈ rsB, maxCellWidth rsB 10 = r.width + 10) ∧
    (∀ r ∈ rsB, r.height + 10 ≤ maxCellHeight rsB 10) ∧
    (∃ r ∈ rsB, maxCellHeight rsB 10 = r.height + 10) ∧
    spriteWidth rsB 10 = gridSize rsB.length * maxCellWidth rsB 10 ∧
    spriteHeight rsB 10 = gridSize rsB.length * maxCellHeight rsB 10 :=
  cell_and_sheet_dimensions rsB 10 (by decide)

/-- C3: the placement for index `i` is `x = (i mod gridSize) * cellWidth`,
`y = (i div gridSize) * cellHeight`, and the index-to-cell map
`i ↦ (i div gridSize, i mod gridSize)` is injective on indices, so distinct
indices occupy distinct cells. -/
theorem placement_row_major (rs : List ImageRecord) (padding i : Nat) (hi : i < rs.length) :
    (placeAt rs padding i).x = (i % gridSize rs.length) * maxCellWidth rs padding ∧
    (placeAt rs padding i).y = (i / gridSize rs.length) * maxCellHeight rs padding ∧
    ∀ j, j < rs.length →
      i / gridSize rs.length = j / gridSize rs.length →
      i % gridSize rs.length = j % gridSize rs.length → i = j := by
  refine ⟨rfl, rfl, fun j hj hdiv hmod => ?_⟩
  calc i = gridSize rs.length * (i / gridSize rs.length) + i % gridSize rs.length :=
        (Nat.div_add_mod i (gridSize rs.length)).symm
    _ = gridSize rs.length * (j / gridSize rs.length) + j % gridSize rs.length := by
        rw [hdiv, hmod]
    _ = j := Nat.div_add_mod j (gridSize rs.length)

/-- C3 witness: the placement formula and cell injectivity instantiated at
index 1 of a concrete two-record sequence. -/
theorem placement_row_major_witness :
    (placeAt rsB 10 1).x = (1 % gridSize rsB.length) * maxCellWidth rsB 10 ∧
    (placeAt rsB 10 1).y = (1 / gridSize rsB.length) * maxCellHeight rsB 10 ∧
    ∀ j, j < rsB.length →
      1 / gridSize rsB.length = j / gridSize rsB.length →
      1 % gridSize rsB.length = j % gridSize rsB.length → 1 = j :=
  placement_row_major rsB 10 1 (by decide)

/-- C4: the pipeline signals `SizeExceeded` exactly when a computed sheet
dimension strictly exceeds the configured maximum, and otherwise — including
when a sheet dimension equals the maximum — it succeeds and produces both the
composite data and the JSON document; an error therefore yields no artifact. -/
theorem size_check_iff (rs : List ImageRecord) (padding maxSize : Nat) :
    (generateSprite rs padding maxSize = Except.error PlanError.SizeExceeded ↔
      (spriteWidth rs padding > maxSize ∨ spriteHeight rs padding > maxSize)) ∧
    (generateSprite rs padding maxSize =
        Except.ok (composites rs padding, jsonData rs padding) ↔
      (spriteWidth rs padding ≤ maxSize ∧ spriteHeight rs padding ≤ maxSize)) := by
  unfold generateSprite
  split
  case isTrue hgt =>
    refine ⟨⟨fun _ => hgt, fun _ => rfl⟩, ⟨fun he => ?_, fun hle => ?_⟩⟩
    · cases he
    · exact absurd hgt (by omega)
  case isFalse hle =>
    refine ⟨⟨fun he => ?_, fun hgt => absurd hgt hle⟩, ⟨fun _ => by omega, fun _ => rfl⟩⟩
    cases he

/-! ### Helper lemmas about `objInsert` and `lookupPos` -/

lemma find?_map_replace (k : String) (v : PlacementEntry) (m : List (String × PlacementEntry))
    (hany : m.any (fun q => q.1 == k) = true) :
    (m.map (fun q => if q.1 == k then (k, v) else q)).find? (fun q => q.1 == k) = some (k, v) := by
  induction m with
  | nil => simp at hany
  | cons q t ih =>
    rw [List.map_cons]
    rcases Bool.eq_false_or_eq_true (q.1 == k) with hq | hq
    · rw [if_pos hq]
      exact List.find?_cons_of_pos _ (by simp)
    · rw [if_neg (by simp [hq]), List.find?_cons_of_neg _ (by simp [hq])]
      apply ih
      rw [List.any_cons] at hany
      simpa [hq] using hany

lemma find?_map_other (k f : String) (v : PlacementEntry) (m : List (String × PlacementEntry))
    (hfk : f ≠ k) :
    (m.map (fun q => if q.1 == k then (k, v) else q)).find? (fun q => q.1 == f) =
      m.find? (fun q => q.1 == f) := by
  induction m with
  | nil => rfl
  | cons q t ih =>
    rw [List.map_cons]
    rcases Bool.eq_false_or_eq_true (q.1 == k) with hq | hq
    · have hk : q.1 = k := by simpa using hq
      rw [if_pos hq]
      have hkf : (k == f) = false := by
        simpa using fun h : k = f => hfk h.symm
      have hqf : (q.1 == f) = false := by rw [hk]; exact hkf
      rw [List.find?_cons_of_neg _ (by simp [hkf]), List.find?_cons_of_neg _ (by simp [hqf]), ih]
    · rw [if_neg (by simp [hq])]
      rcases Bool.eq_false_or_eq_true (q.1 == f) with hf | hf
      · rw [@List.find?_cons_of_pos _ (fun q => q.1 == f) q _ hf,
          @List.find?_cons_of_pos _ (fun q => q.1 == f) q _ hf]
      · rw [List.find?_cons_of_neg _ (by simp [hf]), List.find?_cons_of_neg _ (by simp [hf]), ih]

lemma lookupPos_objInsert (m : List (String × PlacementEntry)) (k f : String)
    (v : PlacementEntry) :
    lookupPos (objInsert m k v) f = if f = k then some v else lookupPos m f := by
  unfold objInsert lookupPos
  split
  case isTrue hany =>
    by_cases hfk : f = k
    · subst hfk
      rw [find?_map_replace f v m hany, if_pos rfl]
      rfl
    · rw [find?_map_other k f v m hfk, if_neg hfk]
  case isFalse hany =>
    rw [List.find?_append]
    by_cases hfk : f = k
    · subst hfk
      have hnone : m.find? (fun q => q.1 == f) = none := by
        rw [List.find?_eq_none]
        intro x hx hpx
        exact hany (List.any_eq_true.mpr ⟨x, hx, hpx⟩)
      rw [hnone, if_pos rfl]
      simp [List.find?_cons]
    · have h1 : List.find? (fun q => q.1 == f) [(k, v)] = none := by
        have hkf : (k == f) = false := by
          simpa using fun h : k = f => hfk h.symm
        simp [List.find?_cons, hkf]
      rw [h1, if_neg hfk]
      simp

lemma any_key_iff (m : List (String × PlacementEntry)) (k : String) :
    m.any (fun q => q.1 == k) = true ↔ k ∈ m.map Prod.fst := by
  rw [List.any_eq_true]
  constructor
  · rintro ⟨q, hq, hqk⟩
    have hk : q.1 = k := by simpa using hqk
    exact List.mem_map.mpr ⟨q, hq, hk⟩
  · intro h
    rcases List.mem_map.mp h with ⟨q, hq, hqk⟩
    refine ⟨q, hq, ?_⟩
    simp [hqk]

lemma keys_map_replace (k : String) (v : PlacementEntry) (m : List (String × PlacementEntry)) :
    (m.map (fun q => if q.1 == k then (k, v) else q)).map Prod.fst = m.map Prod.fst := by
  rw [List.map_map]
  apply List.map_congr_left
  intro q hq
  rcases Bool.eq_false_or_eq_true (q.1 == k) with hqk | hqk
  · have hk : q.1 = k := by simpa using hqk
    simp [Function.comp, hqk, hk]
  · simp [Function.comp, hqk]

lemma keys_objInsert_mem (m : List (String × PlacementEntry)) (k f : String)
    (v : PlacementEntry) :
    f ∈ (objInsert m k v).map Prod.fst ↔ f ∈ m.map Prod.fst ∨ f = k := by
  unfold objInsert
  split
  case isTrue hany =>
    rw [keys_map_replace]
    constructor
    · exact Or.inl
    · rintro (h | h)
      · exact h
      · subst h
        exact (any_key_iff m f).mp hany
  case isFalse hany =>
    simp [List.map_append]

lemma length_objInsert (m : List (String × PlacementEntry)) (k : String) (v : PlacementEntry) :
    (objInsert m k v).length =
      if k ∈ m.map Prod.fst then m.length else m.length + 1 := by
  unfold objInsert
  split
  case isTrue hany =>
    rw [List.length_map, if_pos ((any_key_iff m k).mp hany)]
  case isFalse hany =>
    rw [List.length_append, if_neg (fun hmem => hany ((any_key_iff m k).mpr hmem))]
    rfl

lemma keys_nodup_objInsert (m : List (String × PlacementEntry)) (k : String)
    (v : PlacementEntry) (h : (m.map Prod.fst).Nodup) :
    ((objInsert m k v).map Prod.fst).Nodup := by
  unfold objInsert
  split
  case isTrue hany =>
    rw [keys_map_replace]
    exact h
  case isFalse hany =>
    rw [List.map_append, List.nodup_append]
    refine ⟨h, List.nodup_singleton k, ?_⟩
    intro a ha hak
    have hk : a = k := by simpa using hak
    subst hk
    exact hany ((any_key_iff m a).mpr ha)

/-! ### Helper lemmas about `positionsAux` -/

lemma lookupPos_positionsAux_some (rs : List ImageRecord) (padding : Nat) :
    ∀ m f e, lookupPos (positionsAux rs padding m) f = some e →
      ∃ j, j < m ∧ (rs.getD j default).filename = f ∧ e = placeAt rs padding j := by
  intro m
  induction m with
  | zero =>
    intro f e h
    simp [positionsAux, lookupPos] at h
  | succ m ih =>
    intro f e h
    rw [positionsAux, lookupPos_objInsert] at h
    by_cases hf : f = (rs.getD m default).filename
    · rw [if_pos hf] at h
      exact ⟨m, Nat.lt_succ_self m, hf.symm, (Option.some_inj.mp h).symm⟩
    · rw [if_neg hf] at h
      rcases ih f e h with ⟨j, hj, hfj, he⟩
      exact ⟨j, Nat.lt_succ_of_lt hj, hfj, he⟩

lemma lookupPos_positionsAux_last (rs : List ImageRecord) (padding : Nat) :
    ∀ m j, j < m →
      (∀ k, j < k → k < m → (rs.getD k default).filename ≠ (rs.getD j default).filename) →
      lookupPos (positionsAux rs padding m) ((rs.getD j default).filename) =
        some (placeAt rs padding j) := by
  intro m
  induction m with
  | zero =>
    intro j hj _
    omega
  | succ m ih =>
    intro j hj hlast
    rw [positionsAux, lookupPos_objInsert]
    by_cases hjm : j = m
    · subst hjm
      rw [if_pos rfl]
    · have hne : (rs.getD j default).filename ≠ (rs.getD m default).filename := by
        intro h
        exact hlast m (by omega) (Nat.lt_succ_self m) h.symm
      rw [if_neg hne]
      exact ih j (by omega) (fun k h1 h2 => hlast k h1 (by omega))

lemma positionsAux_keys_mem (rs : List ImageRecord) (padding : Nat) :
    ∀ m f, f ∈ (positionsAux rs padding m).map Prod.fst ↔
      ∃ k, k < m ∧ (rs.getD k default).filename = f := by
  intro m
  induction m with
  | zero =>
    intro f
    simp [positionsAux]
  | succ m ih =>
    intro f
    rw [positionsAux, keys_objInsert_mem, ih]
    constructor
    · rintro (⟨k, hk, hf⟩ | hf)
      · exact ⟨k, by omega, hf⟩
      · exact ⟨m, by omega, hf.symm⟩
    · rintro ⟨k, hk, hf⟩
      by_cases hkm : k = m
      · subst hkm
        exact Or.inr hf.symm
      · exact Or.inl ⟨k, by omega, hf⟩

lemma positionsAux_keys_nodup (rs : List ImageRecord) (padding : Nat) :
    ∀ m, ((positionsAux rs padding m).map Prod.fst).Nodup := by
  intro m
  induction m with
  | zero => simp [positionsAux]
  | succ m ih =>
    rw [positionsAux]
    exact keys_nodup_objInsert _ _ _ ih

lemma positionsAux_length_le (rs : List ImageRecord) (padding : Nat) :
    ∀ m, (positionsAux rs padding m).length ≤ m := by
  intro m
  induction m with
  | zero => simp [positionsAux]
  | succ m ih =>
    rw [positionsAux, length_objInsert]
    split
    · omega
    · omega

lemma positionsAux_length_eq_iff (rs : List ImageRecord) (padding : Nat) :
    ∀ m, (positionsAux rs padding m).length = m ↔
      ∀ k l, k < m → l < m →
        (rs.getD k default).filename = (rs.getD l default).filename → k = l := by
  intro m
  induction m with
  | zero =>
    constructor
    · intro _ k l hk hl _
      omega
    · intro _
      rfl
  | succ m ih =>
    rw [positionsAux, length_objInsert]
    by_cases hmem : (rs.getD m default).filename ∈ (positionsAux rs padding m).map Prod.fst
    · rw [if_pos hmem]
      have hle := positionsAux_length_le rs padding m
      constructor
      · intro h
        omega
      · intro hinj
        exfalso
        rcases (positionsAux_keys_mem rs padding m _).mp hmem with ⟨k, hk, hfk⟩
        have := hinj k m (by omega) (by omega) hfk
        omega
    · rw [if_neg hmem]
      have habs : ∀ k, k < m → (rs.getD k default).filename ≠ (rs.getD m default).filename := by
        intro k hk heq
        exact hmem ((positionsAux_keys_mem rs padding m _).mpr ⟨k, hk, heq⟩)
      constructor
      · intro h
        have hinj := ih.mp (by omega)
        intro k l hk hl hfkl
        by_cases hkm : k = m
        · by_cases hlm : l = m
          · omega
          · subst hkm
            exact absurd hfkl.symm (habs l (by omega))
        · by_cases hlm : l = m
          · subst hlm
            exact absurd hfkl (habs k (by omega))
          · exact hinj k l (by omega) (by omega) hfkl
      · intro hinj
        have := ih.mpr (fun k l hk hl hf => hinj k l (by omega) (by omega) hf)
        omega

/-- C5: each generated placement entry carries its record's own width and
height verbatim (never the cell size), the composite instruction for index `i`
passes the unmodified source image with only a `left`/`top` offset, and every
value stored in the images mapping is the verbatim entry generated for one of
the records bearing that filename — placement and composition never scale,
crop or clamp. -/
theorem entries_verbatim (rs : List ImageRecord) (padding i : Nat) (hi : i < rs.length) :
    (placeAt rs padding i).width = (rs.get ⟨i, hi⟩).width ∧
    (placeAt rs padding i).height = (rs.get ⟨i, hi⟩).height ∧
    (composites rs padding).getD i (default, 0, 0) =
      (rs.get ⟨i, hi⟩, (placeAt rs padding i).x, (placeAt rs padding i).y) ∧
    ∀ f e, lookupPos (positions rs padding) f = some e →
      ∃ j, ∃ hj : j < rs.length, (rs.get ⟨j, hj⟩).filename = f ∧ e = placeAt rs padding j := by
  have hg : rs.getD i default = rs.get ⟨i, hi⟩ := by
    rw [List.getD_eq_getElem rs default hi, List.get_eq_getElem]
  refine ⟨congrArg ImageRecord.width hg, congrArg ImageRecord.height hg, ?_, ?_⟩
  · have hlen : i < (composites rs padding).length := by
      simpa [composites] using hi
    rw [List.getD_eq_getElem _ _ hlen]
    simp [composites, hg, List.getElem?_eq_getElem hi]
  · intro f e h
    rcases lookupPos_positionsAux_some rs padding rs.length f e h with ⟨j, hj, hfj, he⟩
    refine ⟨j, hj, ?_, he⟩
    rw [← hfj, List.getD_eq_getElem rs default hj, List.get_eq_getElem]

def rs7 : List ImageRecord := [⟨"a.png", 1, 2⟩, ⟨"b.png", 3, 4⟩, ⟨"a.png", 5, 6⟩]

/-- C5 witness: the verbatim-dimensions property instantiated at index 1 of a
concrete two-record sequence. -/
theorem entries_verbatim_witness :
    (placeAt rsB 10 1).width = (rsB.get ⟨1, by decide⟩).width ∧
    (placeAt rsB 10 1).height = (rsB.get ⟨1, by decide⟩).height ∧
    (composites rsB 10).getD 1 (default, 0, 0) =
      (rsB.get ⟨1, by decide⟩, (placeAt rsB 10 1).x, (placeAt rsB 10 1).y) ∧
    ∀ f e, lookupPos (positions rsB 10) f = some e →
      ∃ j, ∃ hj : j < rsB.length, (rsB.get ⟨j, hj⟩).filename = f ∧ e = placeAt rsB 10 j :=
  entries_verbatim rsB 10 1 (by decide)

/-- C7: when an earlier record `i` and a later record `j` share a filename and
`j` is the last record with that filename, the finished mapping stores record
`j`'s entry under the shared filename (the later silently overwrites the
earlier), and the overwriting assignment at step `j` leaves the value of every
other key unchanged. -/
theorem collision_last_wins (rs : List ImageRecord) (padding i j : Nat)
    (hij : i < j) (hj : j < rs.length)
    (hsame : (rs.getD i default).filename = (rs.getD j default).filename)
    (hlast : ∀ k, j < k → k < rs.length →
      (rs.getD k default).filename ≠ (rs.getD j default).filename) :
    lookupPos (positions rs padding) ((rs.getD i default).filename) =
      some (placeAt rs padding j) ∧
    ∀ f, f ≠ (rs.getD j default).filename →
      lookupPos (positionsAux rs padding (j + 1)) f =
        lookupPos (positionsAux rs padding j) f := by
  constructor
  · rw [hsame]
    exact lookupPos_positionsAux_last rs padding rs.length j hj hlast
  · intro f hf
    rw [positionsAux, lookupPos_objInsert, if_neg hf]

/-- C7 witness: in a three-record sequence whose first and third records are
both named "a.png", the mapping stores the third record's entry. -/
theorem collision_last_wins_witness :
    lookupPos (positions rs7 0) ((rs7.getD 0 default).filename) =
      some (placeAt rs7 0 2) ∧
    ∀ f, f ≠ (rs7.getD 2 default).filename →
      lookupPos (positionsAux rs7 0 3) f = lookupPos (positionsAux rs7 0 2) f :=
  collision_last_wins rs7 0 0 2 (by decide) (by decide) (by decide)
    (fun k h1 h2 => absurd h2 (by have h3 : rs7.length = 3 := rfl; omega))

def rsDup : List ImageRecord := [⟨"a.png", 1, 1⟩, ⟨"a.png", 2, 2⟩]

/-- C6 counterexample: with two records sharing filename "a.png" the document
reports `imageCount = 2` (the raw record count) while the images mapping
retains a single entry, so `imageCount` does not equal the record count minus
the collisions. -/
theorem imageCount_counterexample :
    (jsonData rsDup 0).imageCount = 2 ∧ (jsonData rsDup 0).images.length = 1 ∧
    (jsonData rsDup 0).imageCount ≠ (jsonData rsDup 0).images.length := by
  refine ⟨rfl, ?_, ?_⟩
  · decide
  · decide

/-- C6 amended: `imageCount` in the document always equals the raw number of
input records; filename collisions collapse entries of the images mapping
below `imageCount` but never reduce `imageCount` itself. -/
theorem imageCount_eq_record_count (rs : List ImageRecord) (padding : Nat) :
    (jsonData rs padding).imageCount = rs.length ∧
    (jsonData rs padding).images.length ≤ rs.length :=
  ⟨rfl, positionsAux_length_le rs padding rs.length⟩

/-- C8: planning and placement are deterministic — two runs on equal ordered
record sequences with equal padding and maximum size produce structurally
equal grid size, cell and sheet dimensions, placement mapping, and pipeline
result. -/
theorem pipeline_deterministic (rs₁ rs₂ : List ImageRecord) (p₁ p₂ m₁ m₂ : Nat)
    (hr : rs₁ = rs₂) (hp : p₁ = p₂) (hm : m₁ = m₂) :
    gridSize rs₁.length = gridSize rs₂.length ∧
    maxCellWidth rs₁ p₁ = maxCellWidth rs₂ p₂ ∧
    maxCellHeight rs₁ p₁ = maxCellHeight rs₂ p₂ ∧
    spriteWidth rs₁ p₁ = spriteWidth rs₂ p₂ ∧
    spriteHeight rs₁ p₁ = spriteHeight rs₂ p₂ ∧
    positions rs₁ p₁ = positions rs₂ p₂ ∧
    generateSprite rs₁ p₁ m₁ = generateSprite rs₂ p₂ m₂ := by
  subst hr
  subst hp
  subst hm
  exact ⟨rfl, rfl, rfl, rfl, rfl, rfl, rfl⟩

/-- C8 witness: determinism instantiated on a concrete run. -/
theorem pipeline_deterministic_witness :
    gridSize rsB.length = gridSize rsB.length ∧
    maxCellWidth rsB 10 = maxCellWidth rsB 10 ∧
    maxCellHeight rsB 10 = maxCellHeight rsB 10 ∧
    spriteWidth rsB 10 = spriteWidth rsB 10 ∧
    spriteHeight rsB 10 = spriteHeight rsB 10 ∧
    positions rsB 10 = positions rsB 10 ∧
    generateSprite rsB 10 4096 = generateSprite rsB 10 4096 :=
  pipeline_deterministic rsB rsB 10 10 4096 4096 rfl rfl rfl

/-- C9: with positive image dimensions and any padding, every placed image
lies fully inside the sheet: `x + width ≤ sheetWidth` and
`y + height ≤ sheetHeight`. -/
theorem placement_in_bounds (rs : List ImageRecord) (padding i : Nat) (hi : i < rs.length)
    (hpos : ∀ r ∈ rs, 0 < r.width ∧ 0 < r.height) :
    (placeAt rs padding i).x + (placeAt rs padding i).width ≤ spriteWidth rs padding ∧
    (placeAt rs padding i).y + (placeAt rs padding i).height ≤ spriteHeight rs padding := by
  have hn : 1 ≤ rs.length := by omega
  have hg : 1 ≤ gridSize rs.length := gridSize_pos rs.length hn
  have hmem : rs.getD i default ∈ rs := by
    rw [List.getD_eq_getElem rs default hi]
    exact List.getElem_mem hi
  have hw : (rs.getD i default).width ≤ maxCellWidth rs padding :=
    Nat.le_trans (le_foldr_max _ _ (List.mem_map_of_mem _ hmem)) (Nat.le_add_right _ padding)
  have hh : (rs.getD i default).height ≤ maxCellHeight rs padding :=
    Nat.le_trans (le_foldr_max _ _ (List.mem_map_of_mem _ hmem)) (Nat.le_add_right _ padding)
  have hcol : i % gridSize rs.length + 1 ≤ gridSize rs.length :=
    Nat.mod_lt i (by omega)
  have hrow : i / gridSize rs.length + 1 ≤ gridSize rs.length := by
    have hlt : i < gridSize rs.length * gridSize rs.length :=
      Nat.lt_of_lt_of_le hi (gridSize_sq_ge rs.length)
    exact (Nat.div_lt_iff_lt_mul (by omega)).mpr hlt
  constructor
  · show (i % gridSize rs.length) * maxCellWidth rs padding + (rs.getD i default).width ≤
      gridSize rs.length * maxCellWidth rs padding
    calc (i % gridSize rs.length) * maxCellWidth rs padding + (rs.getD i default).width
        ≤ (i % gridSize rs.length) * maxCellWidth rs padding + maxCellWidth rs padding :=
          Nat.add_le_add_left hw _
      _ = (i % gridSize rs.length + 1) * maxCellWidth rs padding :=
          (Nat.succ_mul _ _).symm
      _ ≤ gridSize rs.length * maxCellWidth rs padding :=
          Nat.mul_le_mul_right _ hcol
  · show (i / gridSize rs.length) * maxCellHeight rs padding + (rs.getD i default).height ≤
      gridSize rs.length * maxCellHeight rs padding
    calc (i / gridSize rs.length) * maxCellHeight rs padding + (rs.getD i default).height
        ≤ (i / gridSize rs.length) * maxCellHeight rs padding + maxCellHeight rs padding :=
          Nat.add_le_add_left hh _
      _ = (i / gridSize rs.length + 1) * maxCellHeight rs padding :=
          (Nat.succ_mul _ _).symm
      _ ≤ gridSize rs.length * maxCellHeight rs padding :=
          Nat.mul_le_mul_right _ hrow

/-- C9 witness: the in-bounds property instantiated at index 1 of a concrete
two-record sequence with padding 10. -/
theorem placement_in_bounds_witness :
    (placeAt rsB 10 1).x + (placeAt rsB 10 1).width ≤ spriteWidth rsB 10 ∧
    (placeAt rsB 10 1).y + (placeAt rsB 10 1).height ≤ spriteHeight rsB 10 :=
  placement_in_bounds rsB 10 1 (by decide) (by decide)

/-- C10: the key set of the images mapping is exactly the set of filenames of
the input records, without duplicates; hence the mapping has at most one entry
per record, with equality exactly when the input filenames are pairwise
distinct. -/
theorem images_key_set (rs : List ImageRecord) (padding : Nat) :
    (∀ f, f ∈ (positions rs padding).map Prod.fst ↔ f ∈ rs.map (fun r => r.filename)) ∧
    ((positions rs padding).map Prod.fst).Nodup ∧
    (positions rs padding).length ≤ rs.length ∧
    ((positions rs padding).length = rs.length ↔
      ∀ k l, k < rs.length → l < rs.length →
        (rs.getD k default).filename = (rs.getD l default).filename → k = l) := by
  refine ⟨?_, positionsAux_keys_nodup rs padding rs.length,
    positionsAux_length_le rs padding rs.length,
    positionsAux_length_eq_iff rs padding rs.length⟩
  intro f
  show f ∈ (positionsAux rs padding rs.length).map Prod.fst ↔ _
  rw [positionsAux_keys_mem]
  constructor
  · rintro ⟨k, hk, hf⟩
    rw [List.getD_eq_getElem rs default hk] at hf
    exact List.mem_map.mpr ⟨rs[k], List.getElem_mem hk, hf⟩
  · intro h
    rcases List.mem_map.mp h with ⟨r, hr, hf⟩
    rcases List.mem_iff_getElem.mp hr with ⟨n, hn, he⟩
    refine ⟨n, hn, ?_⟩
    rw [List.getD_eq_getElem rs default hn, he, hf]
